import Mathlib

/-!
Verification of the EduMerge mail-merge and document-editor repository.

The Python sources (src/EduMerge.py, src/merger.py) are shallowly embedded
below. Python strings are modelled as lists of characters (abbrev Str);
the output directory of the letter generator is modelled as an association
list from file names to file contents (FileSystem). Python string methods
used by the code (replace, split, title, strip, isalpha, in) are embedded
as executable Lean functions with the semantics of CPython on the inputs
the program feeds them; text-mode file reading is modelled with the
universal-newline translation CPython applies when a file is opened
without an explicit newline argument.
-/

/-- Python strings are modelled as lists of characters. -/
abbrev Str := List Char

/-- Coercion from Lean string literals to the model type. -/
def str (s : String) : Str := s.data

/-- Boolean test that pat is an initial segment of s (used to locate
occurrences of a substring, as the CPython string search does). -/
def leadsWith : Str → Str → Bool
  | [], _ => true
  | _ :: _, [] => false
  | p :: ps, c :: cs => p = c && leadsWith ps cs

/-- When s starts with pat, the remainder of s after pat. -/
def stripLead : Str → Str → Option Str
  | [], s => some s
  | _ :: _, [] => none
  | p :: ps, c :: cs => if p = c then stripLead ps cs else none

/-- Embedding of the Python expression pat in s (substring containment),
equivalently s.find(pat) at least 0. -/
def pyContains (pat : Str) : Str → Bool
  | [] => pat.isEmpty
  | c :: rest => leadsWith pat (c :: rest) || pyContains pat rest

/-- Fuelled worker for pyReplace; the fuel is an upper bound on the length
of the remaining input, so it never runs out when pyReplace calls it. -/
def pyReplaceAux (pat rep : Str) : Nat → Str → Str
  | _, [] => []
  | 0, s => s
  | fuel + 1, c :: rest =>
    match stripLead pat (c :: rest) with
    | some rem =>
      if pat.isEmpty then c :: pyReplaceAux pat rep fuel rest
      else rep ++ pyReplaceAux pat rep fuel rem
    | none => c :: pyReplaceAux pat rep fuel rest

/-- Embedding of Python s.replace(pat, rep) for a non-empty pattern:
every non-overlapping occurrence of pat, scanning left to right, is
replaced by rep. (For the empty pattern CPython also inserts rep between
characters; the program only ever replaces non-empty patterns.) -/
def pyReplace (pat rep s : Str) : Str := pyReplaceAux pat rep s.length s

/-- Fuelled worker for pySplit. -/
def pySplitAux (sep : Str) : Nat → Str → List Str
  | _, [] => [[]]
  | 0, s => [s]
  | fuel + 1, c :: rest =>
    if leadsWith sep (c :: rest) ∧ sep ≠ [] then
      [] :: pySplitAux sep fuel ((c :: rest).drop sep.length)
    else
      match pySplitAux sep fuel rest with
      | [] => [[c]]
      | h :: t => (c :: h) :: t

/-- Embedding of Python s.split(sep) for a non-empty separator: the
pieces of s between non-overlapping occurrences of sep, scanned left to
right; always at least one piece. -/
def pySplit (sep s : Str) : List Str := pySplitAux sep s.length s

/-- Worker for pyTitle: the flag records whether the previous character
was alphabetic (cased). -/
def pyTitleAux : Bool → Str → Str
  | _, [] => []
  | prevAlpha, c :: rest =>
    (if c.isAlpha then (if prevAlpha then c.toLower else c.toUpper) else c)
      :: pyTitleAux c.isAlpha rest

/-- Embedding of Python s.title(): each alphabetic character that follows
a non-alphabetic one (or starts the string) is uppercased, every other
alphabetic character is lowercased. Alphabetic is modelled as ASCII
alphabetic, which is exact on the validated names the program titles. -/
def pyTitle (s : Str) : Str := pyTitleAux false s

/-- Embedding of Python s.isalpha(): s is non-empty and all of its
characters are alphabetic (modelled as ASCII alphabetic). -/
def pyIsAlpha (s : Str) : Bool := !s.isEmpty && s.all Char.isAlpha

/-- Embedding of Python s.strip(): leading and trailing whitespace
removed. -/
def pyStrip (s : Str) : Str :=
  ((s.dropWhile Char.isWhitespace).reverse.dropWhile Char.isWhitespace).reverse

/-- Worker for univNewlines; the flag records whether the previous input
character was a carriage return (whose newline was already emitted), so
that a following line feed is absorbed. -/
def univNLAux : Bool → Str → Str
  | _, [] => []
  | prevCR, c :: rest =>
    if c = '\r' then '\n' :: univNLAux true rest
    else if c = '\n' then
      (if prevCR then univNLAux false rest else '\n' :: univNLAux false rest)
    else c :: univNLAux false rest

/-- Universal-newline translation applied by CPython when reading a file
opened in text mode without a newline argument: CR LF and lone CR both
become LF. -/
def univNewlines (s : Str) : Str := univNLAux false s

/-!
The output directory of the letter generator, modelled as an association
list from file names to file contents (most recent write first is not
needed: fsWrite updates in place or appends a new entry at the end).
-/

/-- A directory of text files: file name paired with file content. -/
abbrev FileSystem := List (Str × Str)

/-- Reading a file by name; none models FileNotFoundError. -/
def fsRead : FileSystem → Str → Option Str
  | [], _ => none
  | (m, d) :: rest, n => if m = n then some d else fsRead rest n

/-- Writing a file: open(path, w) truncates an existing file or creates a
new one, then the full content is written. -/
def fsWrite : FileSystem → Str → Str → FileSystem
  | [], n, c => [(n, c)]
  | (m, d) :: rest, n, c =>
    if m = n then (n, c) :: rest else (m, d) :: fsWrite rest n c

/-!
Letter generation (class Letter in src/EduMerge.py). The letter body
template and the recipient list are the state the dialogs have
accumulated; the per-recipient loop of generate_personalized_letters is
embedded as a fold over the recipient list acting on the output
directory.
-/

/-- The literal placeholder token of the letter template. -/
def placeholder : Str := str "[name]"

/-- Output file name for a recipient: the f-string
recipient's Mail.txt of generate_personalized_letters. -/
def mailFileName (recipient : Str) : Str := recipient ++ str "'s Mail.txt"

/-- Fallback output file name used when mailFileName already exists: the
f-string recipient's Mail(1).txt. -/
def mailFileName1 (recipient : Str) : Str := recipient ++ str "'s Mail(1).txt"

/-- One iteration of the loop in Letter.generate_personalized_letters in
src/EduMerge.py: try to open the primary file for reading; if that
succeeds, write the personalized letter to the fallback (1) name,
otherwise (FileNotFoundError) write it to the primary name. -/
def writeLetterFor (letter_body : Str) (fs : FileSystem) (recipient : Str) :
    FileSystem :=
  let personalized_content := pyReplace placeholder recipient letter_body
  match fsRead fs (mailFileName recipient) with
  | some _ => fsWrite fs (mailFileName1 recipient) personalized_content
  | none => fsWrite fs (mailFileName recipient) personalized_content

/-- The per-recipient loop of Letter.generate_personalized_letters in
src/EduMerge.py, acting on the chosen output directory. -/
def generate_personalized_letters (letter_body : Str) (recipients : List Str)
    (fs : FileSystem) : FileSystem :=
  recipients.foldl (writeLetterFor letter_body) fs

/-- Python exceptions raised by the file operations of the merger.py copy
of the generator. -/
inductive PyError
  | fileNotFound
  /-- Writing to a file handle opened in read mode raises
  io.UnsupportedOperation. -/
  | unsupportedOperation
deriving DecidableEq, Repr

/-- One iteration of the loop in Letter.generate_personalized_letters in
src/merger.py. That copy opens every output file with mode r: when the
primary file is absent, the except branch reopens it in read mode and
FileNotFoundError is raised again (uncaught); when the primary file is
present, the write call on a read-mode handle raises
io.UnsupportedOperation, whether or not the fallback file exists. No
branch ever modifies the directory. -/
def mergerWriteLetterFor (fs : FileSystem) (recipient : Str) :
    Except PyError FileSystem :=
  match fsRead fs (mailFileName recipient) with
  | some _ => .error .unsupportedOperation
  | none => .error .fileNotFound

/-- The per-recipient loop of Letter.generate_personalized_letters in
src/merger.py: the first recipient already raises, and the exception
propagates out of the loop. -/
def merger_generate_personalized_letters (recipients : List Str)
    (fs : FileSystem) : Except PyError FileSystem :=
  recipients.foldlM mergerWriteLetterFor fs

/-!
Control flow of Letter.process_letter_content in src/EduMerge.py. Each
invocation either re-invokes process_letter_content (after a warning, or
after the user declines the exit confirmation), calls
generate_personalized_letters with the collected body, or exits the
application at the exit confirmation. Files are only ever written inside
generate_personalized_letters, so an outcome other than generate creates
no output file.
-/

/-- Outcome of one invocation of Letter.process_letter_content. -/
inductive LetterOutcome
  /-- process_letter_content is invoked again (content entry restarts). -/
  | reprompt
  /-- generate_personalized_letters is called with this letter body. -/
  | generate (letter_body : Str)
  /-- The user confirmed the exit dialog and the process exits. -/
  | exited
deriving DecidableEq, Repr

/-- The Browse branch of Letter.process_letter_content, given the content
read from the selected letter file: when the placeholder is absent
(find returns a negative index) a warning is shown and
process_letter_content is re-invoked, otherwise
generate_personalized_letters runs. -/
def process_letter_content_browse (letter_body : Str) : LetterOutcome :=
  if pyContains placeholder letter_body then .generate letter_body
  else .reprompt

/-- The Type Letter Content branch of Letter.process_letter_content,
given the text and the button of the TextBox dialog and the answer the
user would give to the exit confirmation. Choice Exit routes to
show_exit_confirmation, which exits on Yes and re-invokes
process_letter_content on No; an empty choice would warn about an empty
letter and re-invoke; otherwise the placeholder is validated exactly as
in the Browse branch. -/
def process_letter_content_type (letter_body : Str) (choice : Str)
    (exitYes : Bool) : LetterOutcome :=
  if choice = str "Exit" then (if exitYes then .exited else .reprompt)
  else if choice = [] then .reprompt
  else if pyContains placeholder letter_body then .generate letter_body
  else .reprompt

/-!
Name collection (class NameManager, identical in src/EduMerge.py and
src/merger.py).
-/

/-- The candidate name with spaces and hyphens deleted: the expression
entered_name.replace(space, empty).replace(hyphen, empty) of
NameManager.collect_names_manually. -/
def stripped_name (entered_name : Str) : Str :=
  pyReplace (str "-") [] (pyReplace (str " ") [] entered_name)

/-- The acceptance test of NameManager.collect_names_manually:
entered_name.replace(space, empty).replace(hyphen, empty).isalpha(). -/
def valid_name (entered_name : Str) : Bool :=
  pyIsAlpha (stripped_name entered_name)

/-- Effect of one accepted-or-rejected candidate on the recipient list in
NameManager.collect_names_manually: a valid name is appended in title
case, an invalid one only updates the prompt and appends nothing. -/
def collect_names_step (recipient_names : List Str) (entered_name : Str) :
    List Str :=
  if valid_name entered_name then recipient_names ++ [pyTitle entered_name]
  else recipient_names

/-- The parse-or-reject step of NameManager.names_text_file_processing on
one file content: content without the literal delimiter comma-space is
rejected (warning, loop continues); content containing it is split on the
delimiter and becomes the recipient list. -/
def parseNamesContent (names_content : Str) : Option (List Str) :=
  if pyContains (str ", ") names_content then
    some (pySplit (str ", ") names_content)
  else none

/-- The re-prompt loop of NameManager.names_text_file_processing over the
successive file contents the user selects: the recipient list is set from
the first content containing the delimiter; earlier contents are rejected
and leave the list unset. The none result models a run that is still
looping when the modelled inputs run out. -/
def names_text_file_processing : List Str → Option (List Str)
  | [] => none
  | names_content :: rest =>
    match parseNamesContent names_content with
    | some names => some names
    | none => names_text_file_processing rest

/-- Outcome of NameManager.ask_recipient_count. -/
inductive CountOutcome
  /-- The loop breaks and total_recipients is n. -/
  | returns (n : Int)
  /-- The user confirmed the exit dialog and the process exits. -/
  | exitsApp
deriving DecidableEq, Repr

/-- The while loop of NameManager.ask_recipient_count over the successive
IntBox interactions, each given as the spinbox value, the button choice
and the answer the user would give to the exit confirmation. On Exit the
count is reset to 0 and exit_confirmation runs (exiting on Yes, returning
on No); the loop only breaks once the stored count is at least 2. The
none result models a run still looping when the modelled inputs run
out. -/
def ask_recipient_count : List (Int × Str × Bool) → Option CountOutcome
  | [] => none
  | (value, choice, exitYes) :: rest =>
    if choice = str "Exit" then
      if exitYes then some .exitsApp
      else if (0 : Int) ≥ 2 then some (.returns 0)
      else ask_recipient_count rest
    else if value ≥ 2 then some (.returns value)
    else ask_recipient_count rest

/-!
The document editor (class ModernEditorApp in src/EduMerge.py). The Tk
text widget buffer always ends with one implicit newline; the index pair
1.0 to end-1c extracts everything but that final character. Plain-text
files are written in text mode on a POSIX system (writing is the
identity) and read in text mode with universal-newline translation.
-/

/-- Extraction of the text widget content from index 1.0 to end-1c: the
buffer without its final character (the implicit trailing newline). -/
def tkGetAll (buffer : Str) : Str := buffer.dropLast

/-- ModernEditorApp.save_file on a plain-text document: the bytes written
to the file are the extracted buffer content (text-mode writing on POSIX
translates nothing). -/
def save_file_text (buffer : Str) : Str := tkGetAll buffer

/-- The line-feed character, named for readability in buffer-shaped
expressions. -/
def newlineChar : Char := '\n'

/-- ModernEditorApp.open_file on a plain-text file: the file is read in
text mode (universal-newline translation), the widget is cleared and the
content inserted at 1.0, leaving the implicit trailing newline behind
it. -/
def open_file_text (fileContent : Str) : Str :=
  univNewlines fileContent ++ [newlineChar]

/-!
CSV handling. ModernEditorApp.open_csv reads the file with
open(filepath, r, encoding utf-8) - text mode, universal newlines - and
stores list(csv.reader(file)) in csv_data; save_file on a csv document
writes csv.writer(...).writerows(csv_data) to the file opened with
newline set to the empty string (no write-side translation). The reader
and writer below embed the csv module's default excel dialect: delimiter
comma, quote character double quote, doubled quotes inside quoted fields,
minimal quoting, line terminator CR LF.
-/

/-- States of the csv reader. -/
inductive CsvState
  /-- At the start of a record, no field begun. -/
  | startRecord
  /-- After a delimiter, at the start of a further field. -/
  | startField
  /-- Inside an unquoted field. -/
  | inField
  /-- Inside a quoted field. -/
  | inQuoted
  /-- Just after a quote character inside a quoted field. -/
  | quoteInQuoted
deriving DecidableEq, Repr

/-- The quote character, named so that quoted csv examples stay
readable. -/
def quoteChar : Char := '"'

/-- The csv reader of the Python csv module (default dialect, strict
false) as a character-level state machine: st is the current state, field
the characters of the current field, row the fields of the current
record, rows the completed records. -/
def csvParseAux (st : CsvState) (field : Str) (row : List Str)
    (rows : List (List Str)) : Str → List (List Str)
  | [] =>
    match st with
    | .startRecord => rows
    | _ => rows ++ [row ++ [field]]
  | c :: rest =>
    match st with
    | .startRecord =>
      if c = '\n' then csvParseAux .startRecord [] [] (rows ++ [[]]) rest
      else if c = quoteChar then csvParseAux .inQuoted [] [] rows rest
      else if c = ',' then csvParseAux .startField [] [[]] rows rest
      else csvParseAux .inField [c] [] rows rest
    | .startField =>
      if c = '\n' then
        csvParseAux .startRecord [] [] (rows ++ [row ++ [[]]]) rest
      else if c = quoteChar then csvParseAux .inQuoted [] row rows rest
      else if c = ',' then csvParseAux .startField [] (row ++ [[]]) rows rest
      else csvParseAux .inField [c] row rows rest
    | .inField =>
      if c = '\n' then
        csvParseAux .startRecord [] [] (rows ++ [row ++ [field]]) rest
      else if c = ',' then csvParseAux .startField [] (row ++ [field]) rows rest
      else csvParseAux .inField (field ++ [c]) row rows rest
    | .inQuoted =>
      if c = quoteChar then csvParseAux .quoteInQuoted field row rows rest
      else csvParseAux .inQuoted (field ++ [c]) row rows rest
    | .quoteInQuoted =>
      if c = quoteChar then
        csvParseAux .inQuoted (field ++ [quoteChar]) row rows rest
      else if c = ',' then csvParseAux .startField [] (row ++ [field]) rows rest
      else if c = '\n' then
        csvParseAux .startRecord [] [] (rows ++ [row ++ [field]]) rest
      else csvParseAux .inField (field ++ [c]) row rows rest

/-- Parsing a whole character stream from the initial state. -/
def pyCsvParse (s : Str) : List (List Str) := csvParseAux .startRecord [] [] [] s

/-- ModernEditorApp.open_csv: csv_data after opening a file with this
content (text-mode read, so universal newlines, then the csv reader). -/
def open_csv (fileContent : Str) : List (List Str) :=
  pyCsvParse (univNewlines fileContent)

/-- Whether minimal quoting must quote this field: it contains the
delimiter, the quote character, or a character of the CR LF line
terminator. -/
def csvNeedsQuote (field : Str) : Bool :=
  field.any fun c => c = ',' || c = quoteChar || c = '\r' || c = '\n'

/-- Quote characters doubled, as the writer escapes them inside a quoted
field. -/
def escapeQuotes : Str → Str
  | [] => []
  | c :: rest =>
    if c = quoteChar then quoteChar :: quoteChar :: escapeQuotes rest
    else c :: escapeQuotes rest

/-- A field wrapped in quotes with its quote characters doubled. -/
def csvQuoteField (field : Str) : Str :=
  quoteChar :: (escapeQuotes field ++ [quoteChar])

/-- One field as the csv writer emits it under minimal quoting. -/
def csvWriteField (field : Str) : Str :=
  if csvNeedsQuote field then csvQuoteField field else field

/-- Written fields joined by the comma delimiter. -/
def csvJoinFields : List Str → Str
  | [] => []
  | [w] => w
  | w :: rest => w ++ ',' :: csvJoinFields rest

/-- The body of one record as csv.writer.writerow emits it: fields
joined by commas; a record consisting of exactly one empty field is
quoted so that it is not read back as an empty record. -/
def csvRowBody (row : List Str) : Str :=
  match row with
  | [field] =>
    if field = [] then csvQuoteField field else csvWriteField field
  | _ => csvJoinFields (row.map csvWriteField)

/-- One record as csv.writer.writerow emits it: the body followed by the
CR LF line terminator. -/
def csvWriteRow (row : List Str) : Str := csvRowBody row ++ str "\r\n"

/-- csv.writer.writerows over the stored rows: what save_file writes for
a csv document (the file is opened with newline set to the empty string,
so the bytes are written untranslated). -/
def pyCsvWrite (rows : List (List Str)) : Str := (rows.map csvWriteRow).flatten

/-!
DOCX export. ModernEditorApp.save_as_docx splits the extracted buffer
content on line feeds and adds one paragraph per line whose strip() is
non-empty, in order.
-/

/-- The list of paragraph texts save_as_docx adds to the document, as the
loop over content.split of the newline accumulates them. -/
def save_as_docx_paragraphs (content : Str) : List Str :=
  (pySplit (str "\n") content).foldl
    (fun paragraphs line =>
      if (pyStrip line).isEmpty then paragraphs else paragraphs ++ [line])
    []

-- Sanity checks of the embeddings on concrete inputs.
example : pyCsvParse (str "a,b\n\nc,\"d, e\"\n") =
    [[str "a", str "b"], [], [str "c", str "d, e"]] := by decide
example : pyCsvParse (str "x\"y,\"a\"\"b\"") =
    [[str "x\"y", str "a\"b"]] := by decide
example : pyCsvWrite [[str "a", str "d, e"], [], [str ""]] =
    str "a,\"d, e\"\r\n\r\n\"\"\r\n" := by decide
example : open_csv (str "a,\"x\r\ny\"\r\n") = [[str "a", str "x\ny"]] := by
  decide
example : save_as_docx_paragraphs (str "one\n  \ntwo\n\nthree") =
    [str "one", str "two", str "three"] := by decide
example : open_file_text (str "a\rb") = str "a\nb" ++ [newlineChar] := by
  decide
example : generate_personalized_letters (str "Hi [name]")
      [str "Alice", str "Bob"] [] =
    [(mailFileName (str "Alice"), str "Hi Alice"),
     (mailFileName (str "Bob"), str "Hi Bob")] := by decide
example : merger_generate_personalized_letters [str "Alice"] [] =
    .error .fileNotFound := rfl
example : ask_recipient_count [(1, str "Continue", false), (4, str "Continue", false)] =
    some (.returns 4) := by decide
example : names_text_file_processing [str "AliceBob", str "Alice, Bob"] =
    some [str "Alice", str "Bob"] := by decide
example : collect_names_step [] (str "jean-paul") = [str "Jean-Paul"] := by
  decide
example : collect_names_step [] (str "j3an") = [] := by decide
example : pyReplace (str "[name]") (str "Bob") (str "Hi [name], [name]!") =
    str "Hi Bob, Bob!" := by decide

/-!
Lemmas about the file-system model.
-/

theorem fsRead_fsWrite_self (fs : FileSystem) (n c : Str) :
    fsRead (fsWrite fs n c) n = some c := by
  induction fs with
  | nil => simp [fsWrite, fsRead]
  | cons e rest ih =>
    obtain ⟨m, d⟩ := e
    by_cases h : m = n <;> simp [fsWrite, fsRead, h, ih]

theorem fsRead_fsWrite_of_ne (fs : FileSystem) {n m : Str} (c : Str)
    (h : m ≠ n) : fsRead (fsWrite fs n c) m = fsRead fs m := by
  induction fs with
  | nil => simp [fsWrite, fsRead, Ne.symm h]
  | cons e rest ih =>
    obtain ⟨k, d⟩ := e
    by_cases hk : k = n
    · subst hk
      simp [fsWrite, fsRead, Ne.symm h, h]
    · by_cases hm : k = m <;> simp [fsWrite, fsRead, hk, hm, h, ih]

theorem fsWrite_length_of_fresh (fs : FileSystem) {n : Str} (c : Str)
    (h : fsRead fs n = none) : (fsWrite fs n c).length = fs.length + 1 := by
  induction fs with
  | nil => simp [fsWrite]
  | cons e rest ih =>
    obtain ⟨m, d⟩ := e
    by_cases hm : m = n
    · simp [fsRead, hm] at h
    · simp only [fsRead, hm, if_false, if_neg hm] at h ⊢
      simp [fsWrite, hm, ih h]

theorem fsWrite_length_of_present (fs : FileSystem) {n : Str} (c d : Str)
    (h : fsRead fs n = some d) : (fsWrite fs n c).length = fs.length := by
  induction fs with
  | nil => simp [fsRead] at h
  | cons e rest ih =>
    obtain ⟨m, d'⟩ := e
    by_cases hm : m = n
    · simp [fsWrite, hm]
    · simp only [fsRead, hm, if_neg hm] at h
      simp [fsWrite, hm, ih h]
example : pyContains (str "[name]") (str "Hi [name]") = true := by decide
example : pyContains (str "[name]") (str "Hi name") = false := by decide
example : pySplit (str ", ") (str "Alice, Bob, Carol") =
    [str "Alice", str "Bob", str "Carol"] := by decide
example : pyTitle (str "jean-paul") = str "Jean-Paul" := by decide
example : pyIsAlpha (str "") = false := by decide
example : pyStrip (str "  a b\t") = str "a b" := by decide
example : univNewlines (str "a\r\nb\rc\nd") = str "a\nb\nc\nd" := by decide

/-!
Claim theorems for the mail-merge wizard control flow.
-/

/-- C2: for every letter body without the placeholder, whether read from
a file (Browse) or typed (Type Letter Content), process_letter_content
never calls generate_personalized_letters - on the Browse path and on
every Type path that does not press Exit the outcome is a re-invocation
of process_letter_content - so no output file is created (files are only
written inside generate_personalized_letters). -/
theorem process_letter_content_missing_placeholder (letter_body : Str)
    (h : pyContains placeholder letter_body = false) :
    process_letter_content_browse letter_body = .reprompt
    ∧ (∀ choice exitYes, choice ≠ str "Exit" →
        process_letter_content_type letter_body choice exitYes = .reprompt)
    ∧ ∀ choice exitYes body,
        process_letter_content_type letter_body choice exitYes
          ≠ .generate body := by
  have hne : ¬([] : Str) = str "Exit" := by decide
  refine ⟨by simp [process_letter_content_browse, h], ?_, ?_⟩
  · intro choice exitYes hchoice
    by_cases hc : choice = []
    · subst hc
      simp [process_letter_content_type, hne]
    · simp [process_letter_content_type, hchoice, hc, h]
  · intro choice exitYes body
    by_cases hchoice : choice = str "Exit"
    · cases exitYes <;> simp [process_letter_content_type, hchoice]
    · by_cases hc : choice = []
      · subst hc
        simp [process_letter_content_type, hne]
      · simp [process_letter_content_type, hchoice, hc, h]

/-- Witness for C2 at the concrete body Hello dear friend. -/
theorem process_letter_content_missing_placeholder_witness :
    pyContains placeholder (str "Hello dear friend") = false
    ∧ process_letter_content_browse (str "Hello dear friend") = .reprompt
    ∧ process_letter_content_type (str "Hello dear friend") (str "Continue")
        false = .reprompt :=
  ⟨by decide,
   (process_letter_content_missing_placeholder (str "Hello dear friend")
     (by decide)).1,
   (process_letter_content_missing_placeholder (str "Hello dear friend")
     (by decide)).2.1 (str "Continue") false (by decide)⟩

/-- C4: file content Alice, Bob, Carol parses to the three-name recipient
list, and any file content without the two-character delimiter is
rejected: it yields no recipient list and the processing loop re-prompts
for another file. -/
theorem names_text_file_processing_spec :
    parseNamesContent (str "Alice, Bob, Carol") =
      some [str "Alice", str "Bob", str "Carol"]
    ∧ ∀ (names_content : Str) (rest : List Str),
        pyContains (str ", ") names_content = false →
        parseNamesContent names_content = none
        ∧ names_text_file_processing (names_content :: rest) =
            names_text_file_processing rest := by
  refine ⟨by decide, ?_⟩
  intro names_content rest h
  refine ⟨by simp [parseNamesContent, h], ?_⟩
  simp [names_text_file_processing, parseNamesContent, h]

/-- Witness for C4 at the delimiter-free content Alice and Bob. -/
theorem names_text_file_processing_witness :
    pyContains (str ", ") (str "Alice and Bob") = false
    ∧ parseNamesContent (str "Alice and Bob") = none
    ∧ names_text_file_processing [str "Alice and Bob"] =
        names_text_file_processing [] :=
  ⟨by decide,
   (names_text_file_processing_spec.2 (str "Alice and Bob") [] (by decide)).1,
   (names_text_file_processing_spec.2 (str "Alice and Bob") [] (by decide)).2⟩

/-- C10: whenever ask_recipient_count returns normally (the loop breaks
rather than the process exiting), the stored recipient count is at least
2, whatever interactions the user went through. -/
theorem ask_recipient_count_min_two (inputs : List (Int × Str × Bool))
    (n : Int) (h : ask_recipient_count inputs = some (.returns n)) :
    2 ≤ n := by
  induction inputs with
  | nil => simp [ask_recipient_count] at h
  | cons input rest ih =>
    obtain ⟨value, choice, exitYes⟩ := input
    simp only [ask_recipient_count] at h
    split_ifs at h with h1 h2 h3 h4
    · simp at h
    · omega
    · exact ih h
    · simp only [Option.some.injEq, CountOutcome.returns.injEq] at h
      omega
    · exact ih h

/-- Witness for C10: an interaction that first offers 1, then 4. -/
theorem ask_recipient_count_min_two_witness :
    ask_recipient_count
        [((1 : Int), str "Continue", false), ((4 : Int), str "Continue", false)]
      = some (.returns 4)
    ∧ (2 : Int) ≤ 4 :=
  ⟨by decide,
   ask_recipient_count_min_two
     [((1 : Int), str "Continue", false), ((4 : Int), str "Continue", false)]
     4 (by decide)⟩

/-!
Claim theorems for letter generation.
-/

/-- C5: the two copies of Letter.generate_personalized_letters are not
behaviorally equivalent. On the letter body Hello [name], the single
recipient Alice and an empty output directory, the EduMerge.py copy
writes the personalized letter while the merger.py copy (which opens
every output file in read mode) raises FileNotFoundError and writes
nothing. -/
theorem generate_personalized_letters_copies_diverge :
    generate_personalized_letters (str "Hello [name]") [str "Alice"] [] =
      [(mailFileName (str "Alice"), str "Hello Alice")]
    ∧ merger_generate_personalized_letters [str "Alice"] [] =
        .error .fileNotFound :=
  ⟨by decide, rfl⟩

/-- C9: for a recipient whose primary output file does not exist, the
letter is written to the primary name; when the primary file exists, the
letter goes to the fallback (1) name instead; and when both exist, the
fallback file is overwritten in place - no further file is created, so
the fallback is not collision-safe beyond one retry. -/
theorem generate_letters_collision_fallback (letter_body : Str)
    (fs : FileSystem) (recipient : Str) :
    (fsRead fs (mailFileName recipient) = none →
      writeLetterFor letter_body fs recipient =
        fsWrite fs (mailFileName recipient)
          (pyReplace placeholder recipient letter_body))
    ∧ (∀ c, fsRead fs (mailFileName recipient) = some c →
      writeLetterFor letter_body fs recipient =
        fsWrite fs (mailFileName1 recipient)
          (pyReplace placeholder recipient letter_body))
    ∧ (∀ c c1, fsRead fs (mailFileName recipient) = some c →
        fsRead fs (mailFileName1 recipient) = some c1 →
      fsRead (writeLetterFor letter_body fs recipient)
          (mailFileName1 recipient) =
        some (pyReplace placeholder recipient letter_body)
      ∧ (writeLetterFor letter_body fs recipient).length = fs.length) := by
  refine ⟨fun h => ?_, fun c h => ?_, fun c c1 h h1 => ⟨?_, ?_⟩⟩
  · simp [writeLetterFor, h]
  · simp [writeLetterFor, h]
  · simp [writeLetterFor, h, fsRead_fsWrite_self]
  · simp only [writeLetterFor, h]
    exact fsWrite_length_of_present fs _ c1 h1

/-- Witness for C9 at a directory already holding both files for
Alice: the fallback file is overwritten and no file is added. -/
theorem generate_letters_collision_fallback_witness :
    fsRead [(mailFileName (str "Alice"), str "old"),
            (mailFileName1 (str "Alice"), str "old1")]
        (mailFileName (str "Alice")) = some (str "old")
    ∧ fsRead (writeLetterFor (str "Hi [name]")
          [(mailFileName (str "Alice"), str "old"),
           (mailFileName1 (str "Alice"), str "old1")] (str "Alice"))
        (mailFileName1 (str "Alice")) = some (str "Hi Alice")
    ∧ (writeLetterFor (str "Hi [name]")
          [(mailFileName (str "Alice"), str "old"),
           (mailFileName1 (str "Alice"), str "old1")] (str "Alice")).length
        = 2 := by
  refine ⟨by decide, ?_, ?_⟩
  · have h := ((generate_letters_collision_fallback (str "Hi [name]")
      [(mailFileName (str "Alice"), str "old"),
       (mailFileName1 (str "Alice"), str "old1")] (str "Alice")).2.2
      (str "old") (str "old1") (by decide) (by decide)).1
    rw [h]
    decide
  · have h := ((generate_letters_collision_fallback (str "Hi [name]")
      [(mailFileName (str "Alice"), str "old"),
       (mailFileName1 (str "Alice"), str "old1")] (str "Alice")).2.2
      (str "old") (str "old1") (by decide) (by decide)).2
    rw [h]
    rfl

theorem mailFileName_inj {a b : Str} (h : mailFileName a = mailFileName b) :
    a = b := by
  have := List.append_cancel_right (h : a ++ str "'s Mail.txt" = b ++ str "'s Mail.txt")
  exact this

/-- Core correctness of the EduMerge.py generation loop when the
recipients are pairwise distinct and the directory holds none of their
primary output files: every recipient ends with the primary file holding
the personalized letter, exactly one file is added per recipient, and no
other file changes. -/
theorem generate_letters_fresh_aux (letter_body : Str) :
    ∀ (recipients : List Str) (fs : FileSystem),
    recipients.Nodup →
    (∀ r ∈ recipients, fsRead fs (mailFileName r) = none) →
    (∀ r ∈ recipients,
      fsRead (generate_personalized_letters letter_body recipients fs)
        (mailFileName r) = some (pyReplace placeholder r letter_body))
    ∧ (generate_personalized_letters letter_body recipients fs).length
        = fs.length + recipients.length
    ∧ ∀ n, (∀ r ∈ recipients, n ≠ mailFileName r) →
        fsRead (generate_personalized_letters letter_body recipients fs) n
          = fsRead fs n := by
  intro recipients
  induction recipients with
  | nil => intro fs _ _; simp [generate_personalized_letters]
  | cons r rs ih =>
    intro fs hnodup hfresh
    have hr : fsRead fs (mailFileName r) = none := hfresh r (by simp)
    have hstep : writeLetterFor letter_body fs r =
        fsWrite fs (mailFileName r) (pyReplace placeholder r letter_body) := by
      simp [writeLetterFor, hr]
    have hgen : generate_personalized_letters letter_body (r :: rs) fs =
        generate_personalized_letters letter_body rs
          (fsWrite fs (mailFileName r) (pyReplace placeholder r letter_body)) := by
      simp [generate_personalized_letters, hstep]
    have hnotmem : r ∉ rs := (List.nodup_cons.mp hnodup).1
    have hnodup' : rs.Nodup := (List.nodup_cons.mp hnodup).2
    have hne : ∀ r' ∈ rs, mailFileName r' ≠ mailFileName r := by
      intro r' hr' heq
      exact hnotmem (mailFileName_inj heq ▸ hr')
    have hfresh' : ∀ r' ∈ rs,
        fsRead (fsWrite fs (mailFileName r)
          (pyReplace placeholder r letter_body)) (mailFileName r') = none := by
      intro r' hr'
      rw [fsRead_fsWrite_of_ne fs _ (hne r' hr')]
      exact hfresh r' (by simp [hr'])
    obtain ⟨iha, ihb, ihc⟩ := ih _ hnodup' hfresh'
    refine ⟨?_, ?_, ?_⟩
    · intro r' hr'
      rcases List.mem_cons.mp hr' with h | h
      · subst h
        rw [hgen, ihc (mailFileName r') (fun r'' hr'' => (hne r'' hr'').symm),
          fsRead_fsWrite_self]
      · rw [hgen]; exact iha r' h
    · rw [hgen, ihb, fsWrite_length_of_fresh fs _ hr]
      simp [List.length_cons]
      omega
    · intro n hn
      rw [hgen, ihc n (fun r'' hr'' => hn r'' (by simp [hr''])),
        fsRead_fsWrite_of_ne fs _ (hn r (by simp))]

/-- C1 counterexample: with the template Hello [name] (which contains the
placeholder) and the non-empty recipient list Alice, Alice, Alice in an
empty output directory, generation leaves two output files for the single
recipient name Alice - three recipients, two files - so it is not the
case that exactly one output file exists per recipient. -/
theorem generate_letters_duplicates_counterexample :
    pyContains placeholder (str "Hello [name]") = true
    ∧ generate_personalized_letters (str "Hello [name]")
        [str "Alice", str "Alice", str "Alice"] [] =
      [(mailFileName (str "Alice"), str "Hello Alice"),
       (mailFileName1 (str "Alice"), str "Hello Alice")]
    ∧ [str "Alice", str "Alice", str "Alice"].length = 3
    ∧ (generate_personalized_letters (str "Hello [name]")
        [str "Alice", str "Alice", str "Alice"] []).length = 2 := by
  decide

/-- C1 amended: for every template containing [name], every non-empty
list of pairwise-distinct recipient names, and an output directory
initially containing none of their primary output files, generation
gives each recipient the file name's Mail.txt whose content is the
template with every [name] occurrence replaced by that name, adds exactly
one file per recipient, and touches no other file. -/
theorem generate_personalized_letters_correct (letter_body : Str)
    (recipients : List Str) (fs : FileSystem)
    (hplaceholder : pyContains placeholder letter_body = true)
    (hnonempty : recipients ≠ [])
    (hnodup : recipients.Nodup)
    (hfresh : ∀ r ∈ recipients, fsRead fs (mailFileName r) = none) :
    (∀ r ∈ recipients,
      fsRead (generate_personalized_letters letter_body recipients fs)
        (mailFileName r) = some (pyReplace placeholder r letter_body))
    ∧ (generate_personalized_letters letter_body recipients fs).length
        = fs.length + recipients.length
    ∧ ∀ n, (∀ r ∈ recipients, n ≠ mailFileName r) →
        fsRead (generate_personalized_letters letter_body recipients fs) n
          = fsRead fs n :=
  generate_letters_fresh_aux letter_body recipients fs hnodup hfresh

/-- Witness for C1 at the template Dear [name] and recipients Alice and
Bob in an empty directory. -/
theorem generate_personalized_letters_correct_witness :
    fsRead (generate_personalized_letters (str "Dear [name]")
        [str "Alice", str "Bob"] []) (mailFileName (str "Alice"))
      = some (str "Dear Alice")
    ∧ (generate_personalized_letters (str "Dear [name]")
        [str "Alice", str "Bob"] []).length = 2 := by
  have h := generate_personalized_letters_correct (str "Dear [name]")
    [str "Alice", str "Bob"] [] (by decide) (by decide) (by decide) (by decide)
  refine ⟨?_, ?_⟩
  · rw [h.1 (str "Alice") (by simp)]
    decide
  · rw [h.2.1]
    rfl

/-!
Claim theorems for name validation.
-/

theorem stripLead_single (d c : Char) (rest : Str) :
    stripLead [d] (c :: rest) = if d = c then some rest else none := rfl

theorem pyReplaceAux_single_empty (d : Char) :
    ∀ (fuel : Nat) (s : Str), s.length ≤ fuel →
      pyReplaceAux [d] [] fuel s = s.filter (· != d) := by
  intro fuel
  induction fuel with
  | zero =>
    intro s hs
    rw [List.length_eq_zero.mp (Nat.le_zero.mp hs)]
    rfl
  | succ n ih =>
    intro s hs
    cases s with
    | nil => rfl
    | cons c rest =>
      have hrest : rest.length ≤ n := by
        simpa using Nat.le_of_succ_le_succ (by simpa using hs)
      by_cases hd : d = c
      · subst hd
        have hred : pyReplaceAux [d] [] (n + 1) (d :: rest) =
            pyReplaceAux [d] [] n rest := by
          simp [pyReplaceAux, stripLead_single]
        rw [hred, ih rest hrest]
        simp [List.filter_cons]
      · have hred : pyReplaceAux [d] [] (n + 1) (c :: rest) =
            c :: pyReplaceAux [d] [] n rest := by
          simp [pyReplaceAux, stripLead_single, hd]
        have hcd : (c != d) = true := by
          simp only [bne_iff_ne, ne_eq]
          exact fun h => hd h.symm
        rw [hred, ih rest hrest]
        simp [List.filter_cons, hcd]

theorem stripped_name_eq_filter (entered_name : Str) :
    stripped_name entered_name =
      (entered_name.filter (· != ' ')).filter (· != '-') := by
  unfold stripped_name pyReplace
  rw [show str " " = ([' '] : Str) from rfl, show str "-" = (['-'] : Str) from rfl,
    pyReplaceAux_single_empty ' ' _ _ le_rfl,
    pyReplaceAux_single_empty '-' _ _ le_rfl]

theorem valid_name_iff (entered_name : Str) :
    valid_name entered_name = true ↔
      stripped_name entered_name ≠ [] ∧
      (stripped_name entered_name).all Char.isAlpha = true := by
  unfold valid_name pyIsAlpha
  cases he : stripped_name entered_name with
  | nil => simp
  | cons a l => simp

/-- C3 counterexample: the candidate name consisting of a single hyphen.
Deleting all spaces and hyphens leaves the empty string, which consists
only of alphabetic characters (vacuously), so the claim as stated accepts
it; the code rejects it (the isalpha test is false on the empty string)
and appends nothing. -/
theorem collect_names_hyphen_counterexample :
    (stripped_name (str "-")).all Char.isAlpha = true
    ∧ valid_name (str "-") = false
    ∧ collect_names_step [] (str "-") = [] := by decide

/-- C3 amended: a candidate name is accepted iff the string obtained by
deleting all spaces and hyphens is non-empty and consists only of
alphabetic characters; an accepted name is appended in title case (input
jean-paul is stored as Jean-Paul) and a rejected one appends nothing. -/
theorem collect_names_step_spec (recipient_names : List Str)
    (entered_name : Str) :
    stripped_name entered_name =
      (entered_name.filter (· != ' ')).filter (· != '-')
    ∧ collect_names_step recipient_names entered_name =
        (if stripped_name entered_name ≠ [] ∧
            (stripped_name entered_name).all Char.isAlpha = true
         then recipient_names ++ [pyTitle entered_name]
         else recipient_names)
    ∧ pyTitle (str "jean-paul") = str "Jean-Paul" := by
  refine ⟨stripped_name_eq_filter entered_name, ?_, by decide⟩
  by_cases h : valid_name entered_name
  · rw [show collect_names_step recipient_names entered_name =
        recipient_names ++ [pyTitle entered_name] by
          simp [collect_names_step, h],
      if_pos ((valid_name_iff entered_name).mp h)]
  · rw [show collect_names_step recipient_names entered_name =
        recipient_names by simp [collect_names_step, h],
      if_neg (fun hc => h ((valid_name_iff entered_name).mpr hc))]

/-!
Claim theorems for the plain-text round trip.
-/

theorem univNLAux_of_no_cr :
    ∀ s : Str, '\r' ∉ s → univNLAux false s = s := by
  intro s
  induction s with
  | nil => intro _; rfl
  | cons c rest ih =>
    intro h
    have hc : ¬c = '\r' := fun hc => h (hc ▸ List.mem_cons_self c rest)
    have hrest : '\r' ∉ rest := fun hr => h (List.mem_cons_of_mem c hr)
    by_cases hn : c = '\n'
    · subst hn
      simp [univNLAux, ih hrest]
    · simp [univNLAux, hc, hn, ih hrest]

/-- C6 counterexample: a text buffer whose content holds a carriage
return. Saving writes the carriage return; reopening translates it to a
line feed (universal newlines), so the reopened content differs from the
saved one. -/
theorem text_roundtrip_counterexample :
    save_file_text (str "a\rb\n") = str "a\rb"
    ∧ tkGetAll (open_file_text (save_file_text (str "a\rb\n"))) = str "a\nb"
    ∧ (str "a\nb" : Str) ≠ str "a\rb" := by decide

/-- C6 amended: for every text buffer whose content (the buffer without
the final implicit newline) holds no carriage return, saving with
save_file and reopening with open_file yields a buffer whose extracted
content is byte-identical to the saved content. -/
theorem open_after_save_text (buffer : Str)
    (h : '\r' ∉ tkGetAll buffer) :
    tkGetAll (open_file_text (save_file_text buffer)) = tkGetAll buffer := by
  unfold open_file_text save_file_text univNewlines
  rw [univNLAux_of_no_cr _ h]
  unfold tkGetAll
  simpa [List.concat_eq_append] using
    List.dropLast_concat buffer.dropLast newlineChar

/-- Witness for C6 at the buffer holding hi and the implicit newline. -/
theorem open_after_save_text_witness :
    ('\r' ∉ tkGetAll (str "hi\n"))
    ∧ tkGetAll (open_file_text (save_file_text (str "hi\n"))) =
        tkGetAll (str "hi\n") :=
  ⟨by decide, open_after_save_text (str "hi\n") (by decide)⟩

/-!
Claim theorem for the DOCX export.
-/

theorem foldl_keep_filter (p : Str → Bool) :
    ∀ (lines acc : List Str),
      lines.foldl (fun paragraphs line =>
        if p line then paragraphs else paragraphs ++ [line]) acc
      = acc ++ lines.filter (fun line => !(p line)) := by
  intro lines
  induction lines with
  | nil => intro acc; simp
  | cons l ls ih =>
    intro acc
    by_cases h : p l <;> simp [List.foldl_cons, h, ih, List.filter_cons]

theorem pyStrip_eq_nil_iff (line : Str) :
    pyStrip line = [] ↔ ∀ c ∈ line, Char.isWhitespace c = true := by
  unfold pyStrip
  rw [List.reverse_eq_nil_iff, List.dropWhile_eq_nil_iff]
  constructor
  · intro h c hc
    rw [← List.takeWhile_append_dropWhile (p := Char.isWhitespace)
      (l := line)] at hc
    rcases List.mem_append.mp hc with h1 | h1
    · exact List.mem_takeWhile_imp h1
    · exact h c (List.mem_reverse.mpr h1)
  · intro h c hc
    exact h c ((List.dropWhile_sublist _).subset (List.mem_reverse.mp hc))

/-- C8: save_as_docx adds exactly one paragraph per line of the
newline-split content whose strip() is non-empty, in their original
order, and no paragraph for a blank line - a line is dropped exactly when
it is empty or consists only of whitespace. -/
theorem save_as_docx_paragraphs_spec (content : Str) :
    save_as_docx_paragraphs content =
      (pySplit (str "\n") content).filter
        (fun line => !(pyStrip line).isEmpty)
    ∧ ∀ line : Str, ((pyStrip line).isEmpty = true ↔
        ∀ c ∈ line, Char.isWhitespace c = true) := by
  constructor
  · unfold save_as_docx_paragraphs
    rw [foldl_keep_filter (fun line => (pyStrip line).isEmpty)]
    simp
  · intro line
    rw [List.isEmpty_iff]
    exact pyStrip_eq_nil_iff line

/-!
Claim development for the CSV round trip. The strategy: rows stored by
open_csv contain no carriage return (the universal-newline translation
removed them all); for such rows, translating the written CR LF stream
leaves the row bodies untouched and turns each terminator into a lone
line feed; and parsing that stream recovers exactly the rows.
-/

/-- All fields of all rows are free of carriage returns. -/
def fieldsCrFree (rows : List (List Str)) : Prop :=
  ∀ row ∈ rows, ∀ f ∈ row, '\r' ∉ f

theorem univNLAux_no_cr_out : ∀ (s : Str) (b : Bool), '\r' ∉ univNLAux b s := by
  intro s
  induction s with
  | nil => intro b; simp [univNLAux]
  | cons c rest ih =>
    intro b
    by_cases hc : c = '\r'
    · simp only [univNLAux, hc, if_pos rfl]
      intro h
      rcases List.mem_cons.mp h with h | h
      · exact absurd h.symm (by decide)
      · exact ih true h
    · by_cases hn : c = '\n'
      · subst hn
        cases b <;> simp only [univNLAux, if_neg hc, if_pos rfl] <;>
          first
          | exact ih false
          | intro h
        rcases List.mem_cons.mp h with h | h
        · exact absurd h.symm (by decide)
        · exact ih false h
      · simp only [univNLAux, if_neg hc, if_neg hn]
        intro h
        rcases List.mem_cons.mp h with h | h
        · exact hc h.symm
        · exact ih false h

theorem univNLAux_append_of_no_cr :
    ∀ (a : Str), '\r' ∉ a →
      ∀ b : Str, univNLAux false (a ++ b) = a ++ univNLAux false b := by
  intro a
  induction a with
  | nil => intro _ b; rfl
  | cons c rest ih =>
    intro h b
    have hc : ¬c = '\r' := fun hc => h (hc ▸ List.mem_cons_self c rest)
    have hrest : '\r' ∉ rest := fun hr => h (List.mem_cons_of_mem c hr)
    by_cases hn : c = '\n'
    · subst hn
      simp [univNLAux, ih hrest b]
    · simp [univNLAux, hc, hn, ih hrest b]

theorem univNLAux_crlf (b : Str) :
    univNLAux false ('\r' :: '\n' :: b) = '\n' :: univNLAux false b := by
  simp [univNLAux]

theorem fieldsCrFree_nil : fieldsCrFree [] := by
  intro row h
  simp at h

theorem fieldsCrFree_append_row {rows : List (List Str)} {row : List Str}
    (hrows : fieldsCrFree rows) (hrow : ∀ f ∈ row, '\r' ∉ f) :
    fieldsCrFree (rows ++ [row]) := by
  intro r hr
  rcases List.mem_append.mp hr with h | h
  · exact hrows r h
  · rw [List.mem_singleton.mp h]
    exact hrow

theorem csvParseAux_crFree :
    ∀ (input : Str) (st : CsvState) (field : Str) (row : List Str)
      (rows : List (List Str)),
      '\r' ∉ input → '\r' ∉ field → (∀ f ∈ row, '\r' ∉ f) →
      fieldsCrFree rows →
      fieldsCrFree (csvParseAux st field row rows input) := by
  intro input
  induction input with
  | nil =>
    intro st field row rows _ hfield hrow hrows
    cases st <;> simp only [csvParseAux] <;>
      first
      | exact hrows
      | refine fieldsCrFree_append_row hrows ?_
    all_goals
      intro f hf
      rcases List.mem_append.mp hf with h | h
      · exact hrow f h
      · rw [List.mem_singleton.mp h]; exact hfield
  | cons c rest ih =>
    intro st field row rows hinput hfield hrow hrows
    have hc : c ≠ '\r' := fun h => hinput (h ▸ List.mem_cons_self c rest)
    have hrest : '\r' ∉ rest := fun h => hinput (List.mem_cons_of_mem c h)
    have hfc : '\r' ∉ field ++ [c] := by
      intro h
      rcases List.mem_append.mp h with h | h
      · exact hfield h
      · exact hc (List.mem_singleton.mp h).symm
    have hsingle : '\r' ∉ ([c] : Str) := by
      intro h
      exact hc (List.mem_singleton.mp h).symm
    have hnil : '\r' ∉ ([] : Str) := by simp
    have hrownil : ∀ f ∈ ([] : List Str), '\r' ∉ f := by
      intro f hf; simp at hf
    have hrowfield : ∀ f ∈ row ++ [field], '\r' ∉ f := by
      intro f hf
      rcases List.mem_append.mp hf with h | h
      · exact hrow f h
      · rw [List.mem_singleton.mp h]; exact hfield
    have hrowempty : ∀ f ∈ row ++ [[]], '\r' ∉ f := by
      intro f hf
      rcases List.mem_append.mp hf with h | h
      · exact hrow f h
      · rw [List.mem_singleton.mp h]; exact hnil
    have hrowsrow : fieldsCrFree (rows ++ [row ++ [field]]) :=
      fieldsCrFree_append_row hrows hrowfield
    have hrowsnil : fieldsCrFree (rows ++ [[]]) :=
      fieldsCrFree_append_row hrows hrownil
    have hq : '\r' ∉ field ++ [quoteChar] := by
      intro h
      rcases List.mem_append.mp h with h | h
      · exact hfield h
      · exact absurd (List.mem_singleton.mp h).symm (by decide)
    have hrowemptyfield : ∀ f ∈ ([[]] : List Str), '\r' ∉ f := by
      intro f hf
      rw [List.mem_singleton.mp hf]
      exact hnil
    have hrowsempty : fieldsCrFree (rows ++ [row ++ [[]]]) :=
      fieldsCrFree_append_row hrows hrowempty
    cases st <;> simp only [csvParseAux] <;> split_ifs <;>
      solve
      | exact ih _ _ _ _ hrest hnil hrownil hrowsnil
      | exact ih _ _ _ _ hrest hnil hrownil hrows
      | exact ih _ _ _ _ hrest hnil hrow hrows
      | exact ih _ _ _ _ hrest hnil hrowemptyfield hrows
      | exact ih _ _ _ _ hrest hnil hrownil hrowsempty
      | exact ih _ _ _ _ hrest hfc hrow hrows
      | exact ih _ _ _ _ hrest hsingle hrow hrows
      | exact ih _ _ _ _ hrest hsingle hrownil hrows
      | exact ih _ _ _ _ hrest hnil hrowfield hrows
      | exact ih _ _ _ _ hrest hnil hrowempty hrows
      | exact ih _ _ _ _ hrest hnil hrownil hrowsrow
      | exact ih _ _ _ _ hrest hfield hrow hrows
      | exact ih _ _ _ _ hrest hq hrow hrows

theorem escapeQuotes_no_cr {f : Str} (hf : '\r' ∉ f) :
    '\r' ∉ escapeQuotes f := by
  induction f with
  | nil => simp [escapeQuotes]
  | cons c rest ih =>
    have hc : c ≠ '\r' := fun h => hf (h ▸ List.mem_cons_self c rest)
    have hrest : '\r' ∉ rest := fun h => hf (List.mem_cons_of_mem c h)
    by_cases h : c = quoteChar <;>
      simp only [escapeQuotes, if_pos, if_neg, h] <;>
      intro hmem
    · rcases List.mem_cons.mp hmem with h1 | h1
      · exact absurd h1.symm (by decide)
      · rcases List.mem_cons.mp h1 with h2 | h2
        · exact absurd h2.symm (by decide)
        · exact ih hrest h2
    · rcases List.mem_cons.mp hmem with h1 | h1
      · exact hc h1.symm
      · exact ih hrest h1

theorem csvQuoteField_no_cr {f : Str} (hf : '\r' ∉ f) :
    '\r' ∉ csvQuoteField f := by
  intro h
  rcases List.mem_cons.mp h with h1 | h1
  · exact absurd h1.symm (by decide)
  · rcases List.mem_append.mp h1 with h2 | h2
    · exact escapeQuotes_no_cr hf h2
    · exact absurd (List.mem_singleton.mp h2).symm (by decide)

theorem csvWriteField_no_cr {f : Str} (hf : '\r' ∉ f) :
    '\r' ∉ csvWriteField f := by
  unfold csvWriteField
  split_ifs
  · exact csvQuoteField_no_cr hf
  · exact hf

theorem csvJoinFields_no_cr :
    ∀ ws : List Str, (∀ w ∈ ws, '\r' ∉ w) → '\r' ∉ csvJoinFields ws := by
  intro ws
  induction ws with
  | nil => intro _; simp [csvJoinFields]
  | cons w rest ih =>
    intro h
    cases rest with
    | nil =>
      simpa [csvJoinFields] using h w (List.mem_cons_self w [])
    | cons w2 t =>
      simp only [csvJoinFields]
      intro hmem
      rcases List.mem_append.mp hmem with h1 | h1
      · exact h w (List.mem_cons_self w _) h1
      · rcases List.mem_cons.mp h1 with h2 | h2
        · exact absurd h2.symm (by decide)
        · exact ih (fun x hx => h x (List.mem_cons_of_mem w hx)) h2

theorem csvRowBody_no_cr {row : List Str} (h : ∀ f ∈ row, '\r' ∉ f) :
    '\r' ∉ csvRowBody row := by
  match row with
  | [field] =>
    simp only [csvRowBody]
    split_ifs
    · exact csvQuoteField_no_cr (h field (List.mem_cons_self field []))
    · exact csvWriteField_no_cr (h field (List.mem_cons_self field []))
  | [] =>
    simp [csvRowBody, csvJoinFields]
  | f :: g :: t =>
    refine csvJoinFields_no_cr _ ?_
    intro w hw
    rcases List.mem_map.mp hw with ⟨x, hx, hxw⟩
    exact hxw ▸ csvWriteField_no_cr (h x hx)

/-- The written stream with CR LF terminators, after universal-newline
translation: each record body followed by a lone line feed. -/
def csvWriteRowsLF (rows : List (List Str)) : Str :=
  (rows.map fun row => csvRowBody row ++ ['\n']).flatten

theorem univNewlines_pyCsvWrite {rows : List (List Str)}
    (h : fieldsCrFree rows) :
    univNewlines (pyCsvWrite rows) = csvWriteRowsLF rows := by
  unfold univNewlines
  induction rows with
  | nil => rfl
  | cons row rest ih =>
    have hrow : '\r' ∉ csvRowBody row :=
      csvRowBody_no_cr (h row (List.mem_cons_self row rest))
    have hrest : fieldsCrFree rest :=
      fun r hr => h r (List.mem_cons_of_mem row hr)
    show univNLAux false (csvWriteRow row ++ pyCsvWrite rest) = _
    rw [csvWriteRow, show (str "\r\n") = ['\r', '\n'] from rfl]
    rw [List.append_assoc, univNLAux_append_of_no_cr _ hrow,
      show (['\r', '\n'] ++ pyCsvWrite rest : Str) =
        '\r' :: '\n' :: pyCsvWrite rest from rfl,
      univNLAux_crlf, ih hrest]
    simp [csvWriteRowsLF]

/-!
Step lemmas for the csv reader, one per transition of the state machine.
-/

theorem parse_startRecord_newline (rows : List (List Str)) (rest : Str) :
    csvParseAux .startRecord [] [] rows ('\n' :: rest) =
      csvParseAux .startRecord [] [] (rows ++ [[]]) rest := by
  simp [csvParseAux]

theorem parse_startRecord_quote (rows : List (List Str)) (rest : Str) :
    csvParseAux .startRecord [] [] rows (quoteChar :: rest) =
      csvParseAux .inQuoted [] [] rows rest := by
  simp [csvParseAux, (by decide : ¬(quoteChar : Char) = '\n')]

theorem parse_startRecord_comma (rows : List (List Str)) (rest : Str) :
    csvParseAux .startRecord [] [] rows (',' :: rest) =
      csvParseAux .startField [] [[]] rows rest := by
  simp [csvParseAux, (by decide : ¬(',' : Char) = '\n'),
    (by decide : ¬(',' : Char) = quoteChar)]

theorem parse_startRecord_other {c : Char} (hn : c ≠ '\n')
    (hq : c ≠ quoteChar) (hc : c ≠ ',') (rows : List (List Str)) (rest : Str) :
    csvParseAux .startRecord [] [] rows (c :: rest) =
      csvParseAux .inField [c] [] rows rest := by
  simp [csvParseAux, hn, hq, hc]

theorem parse_startField_newline (row : List Str) (rows : List (List Str))
    (rest : Str) :
    csvParseAux .startField [] row rows ('\n' :: rest) =
      csvParseAux .startRecord [] [] (rows ++ [row ++ [[]]]) rest := by
  simp [csvParseAux]

theorem parse_startField_quote (row : List Str) (rows : List (List Str))
    (rest : Str) :
    csvParseAux .startField [] row rows (quoteChar :: rest) =
      csvParseAux .inQuoted [] row rows rest := by
  simp [csvParseAux, (by decide : ¬(quoteChar : Char) = '\n')]

theorem parse_startField_comma (row : List Str) (rows : List (List Str))
    (rest : Str) :
    csvParseAux .startField [] row rows (',' :: rest) =
      csvParseAux .startField [] (row ++ [[]]) rows rest := by
  simp [csvParseAux, (by decide : ¬(',' : Char) = '\n'),
    (by decide : ¬(',' : Char) = quoteChar)]

theorem parse_startField_other {c : Char} (hn : c ≠ '\n')
    (hq : c ≠ quoteChar) (hc : c ≠ ',') (row : List Str)
    (rows : List (List Str)) (rest : Str) :
    csvParseAux .startField [] row rows (c :: rest) =
      csvParseAux .inField [c] row rows rest := by
  simp [csvParseAux, hn, hq, hc]

theorem parse_inField_newline (field : Str) (row : List Str)
    (rows : List (List Str)) (rest : Str) :
    csvParseAux .inField field row rows ('\n' :: rest) =
      csvParseAux .startRecord [] [] (rows ++ [row ++ [field]]) rest := by
  simp [csvParseAux]

theorem parse_inField_comma (field : Str) (row : List Str)
    (rows : List (List Str)) (rest : Str) :
    csvParseAux .inField field row rows (',' :: rest) =
      csvParseAux .startField [] (row ++ [field]) rows rest := by
  simp [csvParseAux, (by decide : ¬(',' : Char) = '\n')]

theorem parse_inField_other {c : Char} (hn : c ≠ '\n') (hc : c ≠ ',')
    (field : Str) (row : List Str) (rows : List (List Str)) (rest : Str) :
    csvParseAux .inField field row rows (c :: rest) =
      csvParseAux .inField (field ++ [c]) row rows rest := by
  simp [csvParseAux, hn, hc]

theorem parse_inQuoted_quote (field : Str) (row : List Str)
    (rows : List (List Str)) (rest : Str) :
    csvParseAux .inQuoted field row rows (quoteChar :: rest) =
      csvParseAux .quoteInQuoted field row rows rest := by
  simp [csvParseAux]

theorem parse_inQuoted_other {c : Char} (hq : c ≠ quoteChar) (field : Str)
    (row : List Str) (rows : List (List Str)) (rest : Str) :
    csvParseAux .inQuoted field row rows (c :: rest) =
      csvParseAux .inQuoted (field ++ [c]) row rows rest := by
  simp [csvParseAux, hq]

theorem parse_quoteInQuoted_quote (field : Str) (row : List Str)
    (rows : List (List Str)) (rest : Str) :
    csvParseAux .quoteInQuoted field row rows (quoteChar :: rest) =
      csvParseAux .inQuoted (field ++ [quoteChar]) row rows rest := by
  simp [csvParseAux]

theorem parse_quoteInQuoted_comma (field : Str) (row : List Str)
    (rows : List (List Str)) (rest : Str) :
    csvParseAux .quoteInQuoted field row rows (',' :: rest) =
      csvParseAux .startField [] (row ++ [field]) rows rest := by
  simp [csvParseAux, (by decide : ¬(',' : Char) = quoteChar)]

theorem parse_quoteInQuoted_newline (field : Str) (row : List Str)
    (rows : List (List Str)) (rest : Str) :
    csvParseAux .quoteInQuoted field row rows ('\n' :: rest) =
      csvParseAux .startRecord [] [] (rows ++ [row ++ [field]]) rest := by
  simp [csvParseAux, (by decide : ¬('\n' : Char) = quoteChar),
    (by decide : ¬('\n' : Char) = ',')]

theorem parse_startRecord_nil (rows : List (List Str)) :
    csvParseAux .startRecord [] [] rows [] = rows := rfl

theorem escapeQuotes_cons_quote (f : Str) :
    escapeQuotes (quoteChar :: f) = quoteChar :: quoteChar :: escapeQuotes f := by
  simp [escapeQuotes]

theorem escapeQuotes_cons_other {c : Char} (hc : c ≠ quoteChar) (f : Str) :
    escapeQuotes (c :: f) = c :: escapeQuotes f := by
  simp [escapeQuotes, hc]

/-!
Run lemmas: consuming a whole written field from the appropriate state.
-/

theorem csvParseAux_inField_run :
    ∀ (f : Str), (∀ c ∈ f, c ≠ ',' ∧ c ≠ '\n') →
      ∀ (acc : Str) (row : List Str) (rows : List (List Str)) (rest : Str),
        csvParseAux .inField acc row rows (f ++ rest) =
          csvParseAux .inField (acc ++ f) row rows rest := by
  intro f
  induction f with
  | nil =>
    intro _ acc row rows rest
    simp
  | cons c f' ih =>
    intro h acc row rows rest
    have hc := h c (List.mem_cons_self c f')
    have h' : ∀ x ∈ f', x ≠ ',' ∧ x ≠ '\n' :=
      fun x hx => h x (List.mem_cons_of_mem c hx)
    rw [List.cons_append, parse_inField_other hc.2 hc.1,
      ih h' (acc ++ [c]) row rows rest]
    simp

theorem csvParseAux_inQuoted_run :
    ∀ (f acc : Str) (row : List Str) (rows : List (List Str)) (rest : Str),
      csvParseAux .inQuoted acc row rows
          (escapeQuotes f ++ (quoteChar :: rest)) =
        csvParseAux .quoteInQuoted (acc ++ f) row rows rest := by
  intro f
  induction f with
  | nil =>
    intro acc row rows rest
    show csvParseAux .inQuoted acc row rows ([] ++ (quoteChar :: rest)) = _
    rw [List.nil_append, parse_inQuoted_quote]
    simp
  | cons c f' ih =>
    intro acc row rows rest
    by_cases hc : c = quoteChar
    · subst hc
      rw [escapeQuotes_cons_quote, List.cons_append, List.cons_append,
        parse_inQuoted_quote, parse_quoteInQuoted_quote,
        ih (acc ++ [quoteChar]) row rows rest]
      simp
    · rw [escapeQuotes_cons_other hc, List.cons_append,
        parse_inQuoted_other hc, ih (acc ++ [c]) row rows rest]
      simp

theorem csvNeedsQuote_eq_false_iff (f : Str) :
    csvNeedsQuote f = false ↔
      ∀ c ∈ f, c ≠ ',' ∧ c ≠ quoteChar ∧ c ≠ '\r' ∧ c ≠ '\n' := by
  unfold csvNeedsQuote
  rw [List.any_eq_false]
  constructor <;>
    · intro h c hc
      have := h c hc
      simp only [Bool.or_eq_true, decide_eq_true_eq, not_or] at this ⊢
      tauto

theorem parse_startRecord_eq_startField {c : Char} (hn : c ≠ '\n')
    (rows : List (List Str)) (rest : Str) :
    csvParseAux .startRecord [] [] rows (c :: rest) =
      csvParseAux .startField [] [] rows (c :: rest) := by
  by_cases hq : c = quoteChar
  · subst hq
    rw [parse_startRecord_quote, parse_startField_quote]
  · by_cases hc : c = ','
    · subst hc
      rw [parse_startRecord_comma, parse_startField_comma]
      simp
    · rw [parse_startRecord_other hn hq hc, parse_startField_other hn hq hc]

theorem parse_startRecord_eq_startField_append (w : Str) (c2 : Char)
    (hc2 : w = [] → c2 ≠ '\n') (hw : ∀ a as, w = a :: as → a ≠ '\n')
    (rows : List (List Str)) (rest : Str) :
    csvParseAux .startRecord [] [] rows (w ++ c2 :: rest) =
      csvParseAux .startField [] [] rows (w ++ c2 :: rest) := by
  cases w with
  | nil =>
    rw [List.nil_append]
    exact parse_startRecord_eq_startField (hc2 rfl) rows rest
  | cons a as =>
    rw [List.cons_append]
    exact parse_startRecord_eq_startField (hw a as rfl) rows _

theorem csvWriteField_eq_nil {f : Str} (h : csvWriteField f = []) :
    f = [] := by
  unfold csvWriteField at h
  split_ifs at h
  · exact absurd h (by simp [csvQuoteField])
  · exact h

theorem csvWriteField_head_ne_newline (f : Str) :
    ∀ a as, csvWriteField f = a :: as → a ≠ '\n' := by
  intro a as h
  unfold csvWriteField at h
  split_ifs at h with hq
  · rw [csvQuoteField] at h
    rw [(List.cons.injEq _ _ _ _).mp h |>.1.symm]
    decide
  · have := (csvNeedsQuote_eq_false_iff f).mp (by simpa using hq)
    have ha := this a (h ▸ List.mem_cons_self a as)
    exact ha.2.2.2

theorem csvParseAux_quotedField_comma (f : Str) (row : List Str)
    (rows : List (List Str)) (rest : Str) :
    csvParseAux .startField [] row rows (csvQuoteField f ++ (',' :: rest)) =
      csvParseAux .startField [] (row ++ [f]) rows rest := by
  rw [csvQuoteField, List.cons_append, parse_startField_quote,
    List.append_assoc,
    show ([quoteChar] ++ (',' :: rest) : Str) = quoteChar :: ',' :: rest
      from rfl,
    csvParseAux_inQuoted_run f [] row rows (',' :: rest), List.nil_append,
    parse_quoteInQuoted_comma]

theorem csvParseAux_quotedField_newline (f : Str) (row : List Str)
    (rows : List (List Str)) (rest : Str) :
    csvParseAux .startField [] row rows (csvQuoteField f ++ ('\n' :: rest)) =
      csvParseAux .startRecord [] [] (rows ++ [row ++ [f]]) rest := by
  rw [csvQuoteField, List.cons_append, parse_startField_quote,
    List.append_assoc,
    show ([quoteChar] ++ ('\n' :: rest) : Str) = quoteChar :: '\n' :: rest
      from rfl,
    csvParseAux_inQuoted_run f [] row rows ('\n' :: rest), List.nil_append,
    parse_quoteInQuoted_newline]

theorem csvParseAux_rawField_comma (f : Str) (hf : csvNeedsQuote f = false)
    (row : List Str) (rows : List (List Str)) (rest : Str) :
    csvParseAux .startField [] row rows (f ++ (',' :: rest)) =
      csvParseAux .startField [] (row ++ [f]) rows rest := by
  have hall := (csvNeedsQuote_eq_false_iff f).mp hf
  cases f with
  | nil =>
    rw [List.nil_append, parse_startField_comma]
  | cons c f' =>
    have hc := hall c (List.mem_cons_self c f')
    rw [List.cons_append, parse_startField_other hc.2.2.2 hc.2.1 hc.1,
      csvParseAux_inField_run f'
        (fun x hx =>
          ⟨(hall x (List.mem_cons_of_mem c hx)).1,
           (hall x (List.mem_cons_of_mem c hx)).2.2.2⟩)
        [c] row rows (',' :: rest),
      parse_inField_comma]
    simp

theorem csvParseAux_rawField_newline (f : Str) (hf : csvNeedsQuote f = false)
    (row : List Str) (rows : List (List Str)) (rest : Str) :
    csvParseAux .startField [] row rows (f ++ ('\n' :: rest)) =
      csvParseAux .startRecord [] [] (rows ++ [row ++ [f]]) rest := by
  have hall := (csvNeedsQuote_eq_false_iff f).mp hf
  cases f with
  | nil =>
    rw [List.nil_append, parse_startField_newline]
  | cons c f' =>
    have hc := hall c (List.mem_cons_self c f')
    rw [List.cons_append, parse_startField_other hc.2.2.2 hc.2.1 hc.1,
      csvParseAux_inField_run f'
        (fun x hx =>
          ⟨(hall x (List.mem_cons_of_mem c hx)).1,
           (hall x (List.mem_cons_of_mem c hx)).2.2.2⟩)
        [c] row rows ('\n' :: rest),
      parse_inField_newline]
    simp

theorem csvParseAux_wField_comma (f : Str) (row : List Str)
    (rows : List (List Str)) (rest : Str) :
    csvParseAux .startField [] row rows (csvWriteField f ++ (',' :: rest)) =
      csvParseAux .startField [] (row ++ [f]) rows rest := by
  unfold csvWriteField
  split_ifs with h
  · exact csvParseAux_quotedField_comma f row rows rest
  · exact csvParseAux_rawField_comma f (by simpa using h) row rows rest

theorem csvParseAux_wField_newline (f : Str) (row : List Str)
    (rows : List (List Str)) (rest : Str) :
    csvParseAux .startField [] row rows (csvWriteField f ++ ('\n' :: rest)) =
      csvParseAux .startRecord [] [] (rows ++ [row ++ [f]]) rest := by
  unfold csvWriteField
  split_ifs with h
  · exact csvParseAux_quotedField_newline f row rows rest
  · exact csvParseAux_rawField_newline f (by simpa using h) row rows rest

theorem csvJoinFields_cons_cons (w w2 : Str) (t : List Str) :
    csvJoinFields (w :: w2 :: t) = w ++ ',' :: csvJoinFields (w2 :: t) := by
  simp [csvJoinFields]

theorem csvParseAux_fields (fs : List Str) (hne : fs ≠ []) :
    ∀ (row : List Str) (rows : List (List Str)) (rest : Str),
      csvParseAux .startField [] row rows
          (csvJoinFields (fs.map csvWriteField) ++ ('\n' :: rest)) =
        csvParseAux .startRecord [] [] (rows ++ [row ++ fs]) rest := by
  induction fs with
  | nil => exact absurd rfl hne
  | cons f t ih =>
    intro row rows rest
    cases t with
    | nil =>
      rw [show csvJoinFields ([f].map csvWriteField) = csvWriteField f
        from rfl]
      exact csvParseAux_wField_newline f row rows rest
    | cons g t' =>
      rw [List.map_cons, List.map_cons,
        csvJoinFields_cons_cons (csvWriteField f) (csvWriteField g)
          (t'.map csvWriteField),
        ← List.map_cons csvWriteField g t',
        List.append_assoc, List.cons_append,
        csvParseAux_wField_comma f row rows _,
        ih (by simp) (row ++ [f]) rows rest]
      simp

theorem csvParseAux_row (row : List Str) (rows : List (List Str))
    (rest : Str) :
    csvParseAux .startRecord [] [] rows (csvRowBody row ++ ('\n' :: rest)) =
      csvParseAux .startRecord [] [] (rows ++ [row]) rest := by
  match row with
  | [] =>
    rw [show csvRowBody [] = [] from rfl, List.nil_append,
      parse_startRecord_newline]
  | [f] =>
    by_cases hf : f = []
    · subst hf
      rw [show csvRowBody [[]] = [quoteChar, quoteChar] from rfl,
        show ([quoteChar, quoteChar] ++ ('\n' :: rest) : Str) =
          quoteChar :: quoteChar :: '\n' :: rest from rfl,
        parse_startRecord_quote, parse_inQuoted_quote,
        parse_quoteInQuoted_newline]
      simp
    · rw [show csvRowBody [f] = csvWriteField f by simp [csvRowBody, hf],
        parse_startRecord_eq_startField_append (csvWriteField f) '\n'
          (fun h => absurd (csvWriteField_eq_nil h) hf)
          (csvWriteField_head_ne_newline f) rows rest,
        csvParseAux_wField_newline f [] rows rest]
      simp
  | f :: g :: t =>
    have hjoin : csvRowBody (f :: g :: t) =
        csvWriteField f ++ ',' :: csvJoinFields ((g :: t).map csvWriteField) := by
      rw [show csvRowBody (f :: g :: t) =
        csvJoinFields ((f :: g :: t).map csvWriteField) from rfl,
        List.map_cons, List.map_cons,
        csvJoinFields_cons_cons (csvWriteField f) (csvWriteField g)
          (t.map csvWriteField),
        ← List.map_cons csvWriteField g t]
    rw [hjoin, List.append_assoc, List.cons_append,
      parse_startRecord_eq_startField_append (csvWriteField f) ','
        (fun _ => by decide) (csvWriteField_head_ne_newline f) rows _,
      csvParseAux_wField_comma f [] rows _, List.nil_append,
      csvParseAux_fields (g :: t) (by simp) [f] rows rest]
    simp

theorem csvParseAux_rowsLF (rows : List (List Str)) :
    ∀ acc : List (List Str),
      csvParseAux .startRecord [] [] acc (csvWriteRowsLF rows) =
        acc ++ rows := by
  induction rows with
  | nil =>
    intro acc
    rw [show csvWriteRowsLF [] = [] from rfl, parse_startRecord_nil]
    simp
  | cons r rs ih =>
    intro acc
    rw [show csvWriteRowsLF (r :: rs) =
        csvRowBody r ++ ('\n' :: csvWriteRowsLF rs) by
      simp [csvWriteRowsLF],
      csvParseAux_row r acc _, ih (acc ++ [r])]
    simp

/-- C7: opening a CSV file stores its parsed rows, the first row being
the headers; saving without edits writes those rows back, and the file
so written parses to exactly the same rows - the original header and
data rows are reproduced (the physical line terminator may change from
LF to CR LF, which the next text-mode read translates back). -/
theorem open_csv_save_file_roundtrip (fileContent : Str) :
    open_csv (pyCsvWrite (open_csv fileContent)) = open_csv fileContent
    ∧ (open_csv (pyCsvWrite (open_csv fileContent))).head? =
        (open_csv fileContent).head?
    ∧ (open_csv (pyCsvWrite (open_csv fileContent))).drop 1 =
        (open_csv fileContent).drop 1 := by
  have hcr : fieldsCrFree (open_csv fileContent) := by
    unfold open_csv pyCsvParse
    refine csvParseAux_crFree _ _ _ _ _ ?_ ?_ ?_ ?_
    · exact univNLAux_no_cr_out fileContent false
    · simp
    · intro f hf; simp at hf
    · exact fieldsCrFree_nil
  have hmain : open_csv (pyCsvWrite (open_csv fileContent)) =
      open_csv fileContent := by
    conv_lhs => rw [open_csv]
    rw [univNewlines_pyCsvWrite hcr]
    unfold pyCsvParse
    rw [csvParseAux_rowsLF (open_csv fileContent) []]
    simp
  exact ⟨hmain, by rw [hmain], by rw [hmain]⟩
